import Mathlib

/-!
Verification development for the lyrics-overlay application (src/main.py).

The Python code (and the JavaScript overlay embedded in `build_overlay_html`)
is shallowly embedded here:

* Python/JS strings are `List Char`; `str.strip`, `str.lower`, splitting and
  regex scanning are modelled character by character.
* Python floats are modelled as `ℚ`; `round(x, 3)` is modelled as exact
  round-half-to-even at three decimal places (`pyRound3`).
* Network effects are modelled by passing the decoded responses (or the
  classified exception) of each HTTP call as explicit arguments; the
  exception hierarchy of `requests` is modelled by small inductive types.
* `list.sort(key=lambda x: x[0])` is a stable sort by the first component;
  it is modelled by `List.insertionSort` with the corresponding total
  preorder, which is also stable.
* The two regexes of `parse_lrc_synced_lines` are compiled by hand into
  deterministic scanners (`parseTSBody`, `scanTimestamps`,
  `leadingTimestampsGo`); the recursive scanners take the input length as
  structural fuel (each step consumes at least one character, so the fuel
  never runs out).
-/

/- The arithmetic of `Rat` is sealed in core; reopen it so that concrete
evaluations of the embedded functions go through `decide`. -/
attribute [local semireducible] Rat.mul Rat.inv Rat.add Rat.sub

/-! ### Character and string helpers (Python `str` operations) -/

/-- Whitespace test used to model Python `str.strip` and the JS `\s` class. -/
def isSpaceChar (c : Char) : Bool := c.isWhitespace

/-- Python `str.strip()`: drop whitespace from both ends. -/
def pyStrip (l : List Char) : List Char :=
  ((l.dropWhile isSpaceChar).reverse.dropWhile isSpaceChar).reverse

/-- Python `str.lower()` (ASCII case folding suffices for the model). -/
def pyLower (l : List Char) : List Char := l.map Char.toLower

/-- Numeric value of a string of decimal digits, as Python `int(...)`. -/
def digitsToNat (l : List Char) : ℕ :=
  l.foldl (fun n c => n * 10 + (c.toNat - 48)) 0

/-! ### LrcParser: `parse_lrc_synced_lines` (src/main.py lines 355-397) -/

/-- A captured timestamp bracket: `(minutes, seconds, fraction digits)`. -/
abbrev TsGroups := ℕ × ℕ × List Char

/-- Match of the timestamp bracket body after an opening `[`, following the
regex `\[(\d{1,2}):(\d{2})(?:\.(\d{1,3}))?\]` (with Python backtracking
resolved: the minute run must have length 1 or 2 and be followed by `:`;
the fraction run must have length 1..3 and be followed by `]`).
Returns the captured groups and the rest of the input after `]`. -/
def parseTSBody (l : List Char) : Option (TsGroups × List Char) :=
  let mmDigits := l.takeWhile Char.isDigit
  match l.dropWhile Char.isDigit with
  | ':' :: d1 :: d2 :: rest3 =>
    if (mmDigits.length = 1 ∨ mmDigits.length = 2) ∧ d1.isDigit ∧ d2.isDigit then
      match rest3 with
      | ']' :: rest4 => some ((digitsToNat mmDigits, digitsToNat [d1, d2], []), rest4)
      | '.' :: rest4 =>
        (match rest4.dropWhile Char.isDigit with
         | ']' :: rest5 =>
           let frDigits := rest4.takeWhile Char.isDigit
           if 1 ≤ frDigits.length ∧ frDigits.length ≤ 3 then
             some ((digitsToNat mmDigits, digitsToNat [d1, d2], frDigits), rest5)
           else none
         | _ => none)
      | _ => none
    else none
  | _ => none

/-- Left-to-right non-overlapping scan of the whole line for timestamp
brackets, as `ts_pattern.finditer(line)`. The fuel is the input length;
a successful match consumes at least six characters, so fuel suffices. -/
def scanTimestamps : ℕ → List Char → List TsGroups
  | 0, _ => []
  | _, [] => []
  | fuel + 1, c :: rest =>
    if c = '[' then
      match parseTSBody rest with
      | some (ts, rest2) => ts :: scanTimestamps fuel rest2
      | none => scanTimestamps fuel rest
    else scanTimestamps fuel rest

/-- All timestamp brackets found anywhere on a line (`ts_pattern.finditer`). -/
def findTimestamps (l : List Char) : List TsGroups := scanTimestamps l.length l

/-- Maximal run of timestamp brackets at the start of the line together with
the remaining text, following `line_pattern.match`: group 5 of
`(\[...\])+(.+)?$` is the text after the greedy leading repetition. -/
def leadingTimestampsGo : ℕ → List Char → List TsGroups × List Char
  | 0, l => ([], l)
  | _, [] => ([], [])
  | fuel + 1, c :: rest =>
    if c = '[' then
      match parseTSBody rest with
      | some (ts, rest2) =>
        let p := leadingTimestampsGo fuel rest2
        (ts :: p.1, p.2)
      | none => ([], c :: rest)
    else ([], c :: rest)

/-- Leading timestamps and trailing text of a line. -/
def leadingTimestamps (l : List Char) : List TsGroups × List Char :=
  leadingTimestampsGo l.length l

/-- Milliseconds of a fraction group: `int((fraction + "000")[:3])`. An
absent group is the default string `"0"`, which also yields `0`. -/
def fracMillis (frac : List Char) : ℕ :=
  digitsToNat ((frac ++ ['0', '0', '0']).take 3)

/-- Seconds denoted by a timestamp bracket:
`(minutes * 60) + seconds + (millis / 1000.0)`. -/
def tsSeconds : TsGroups → ℚ
  | (mm, ss, frac) => (mm : ℚ) * 60 + (ss : ℚ) + (fracMillis frac : ℚ) / 1000

/-- Cue candidates contributed by one (already stripped) line: if the line
starts with at least one timestamp bracket and has non-empty stripped
trailing text, one `(seconds, text)` pair per timestamp found anywhere on
the line; otherwise nothing. -/
def lineCues (line : List Char) : List (ℚ × List Char) :=
  match leadingTimestamps line with
  | ([], _) => []
  | (_ :: _, rem) =>
    let lyric := pyStrip rem
    if lyric = [] then []
    else (findTimestamps line).map (fun ts => (tsSeconds ts, lyric))

/-- Ordering used by `cues.sort(key=lambda x: x[0])`: compare times only. -/
def cueTimeLE (a b : ℚ × List Char) : Prop := a.1 ≤ b.1

instance : DecidableRel cueTimeLE :=
  fun a b => inferInstanceAs (Decidable (a.1 ≤ b.1))

instance : IsTotal (ℚ × List Char) cueTimeLE := ⟨fun a b => le_total a.1 b.1⟩

instance : IsTrans (ℚ × List Char) cueTimeLE := ⟨fun _ _ _ => le_trans⟩

/-- Dedup loop body: keep a cue iff it differs from the immediately
preceding cue of the sorted list (`last` is updated on every iteration). -/
def dedupNeLast (last : ℚ × List Char) : List (ℚ × List Char) → List (ℚ × List Char)
  | [] => []
  | c :: rest => if c = last then dedupNeLast c rest else c :: dedupNeLast c rest

/-- Deduplicate exact consecutive repeats, first occurrence kept
(`last` starts as `None`, so the first cue is always kept). -/
def dedupConsecutive : List (ℚ × List Char) → List (ℚ × List Char)
  | [] => []
  | c :: rest => c :: dedupNeLast c rest

/-- Embedding of `parse_lrc_synced_lines`: split into lines (after removing
`\r`), strip each line, skip empty ones, collect the cue candidates of each
line, sort stably by time and remove consecutive duplicates. -/
def parse_lrc_synced_lines (lrc_text : List Char) : List (ℚ × List Char) :=
  if lrc_text = [] then []
  else
    let lines := ((lrc_text.filter (fun c => c ≠ '\r')).splitOn '\n').map pyStrip
    let cues := lines.flatMap (fun line => if line = [] then [] else lineCues line)
    dedupConsecutive (List.insertionSort cueTimeLE cues)

/-! ### Rounding: Python `round(x, 3)` (round half to even, 3 decimals) -/

/-- Round half to even on `ℚ`, as Python `round` to zero decimal places. -/
def pyRoundHalfEven (x : ℚ) : ℤ :=
  if x - ⌊x⌋ < 1/2 then ⌊x⌋
  else if 1/2 < x - ⌊x⌋ then ⌊x⌋ + 1
  else if ⌊x⌋ % 2 = 0 then ⌊x⌋ else ⌊x⌋ + 1

/-- Python `round(x, 3)`. -/
def pyRound3 (x : ℚ) : ℚ := (pyRoundHalfEven (x * 1000) : ℚ) / 1000

/-! ### CueBuilder: `_build_overlay_cues` (src/main.py lines 406-427) -/

/-- A display cue `{start, end, text}`; the `end` field is called `stop`
because `end` is a Lean keyword. -/
structure Cue where
  start : ℚ
  stop : ℚ
  text : List Char
deriving DecidableEq

/-- Synced branch of `_build_overlay_cues`: for cue `i` with a successor,
`end = max(start_i + 0.15, start_of_next - 0.05)`; for the last cue,
`end = start + max(2.0, seconds_per_line)`; both ends and the start are
rounded to three decimals. -/
def buildSyncedCues (seconds_per_line : ℚ) : List (ℚ × List Char) → List Cue
  | [] => []
  | [(start_sec, text)] =>
    [⟨pyRound3 start_sec, pyRound3 (start_sec + max 2 seconds_per_line), text⟩]
  | (start_sec, text) :: next :: rest =>
    ⟨pyRound3 start_sec, pyRound3 (max (start_sec + 3/20) (next.1 - 1/20)), text⟩ ::
      buildSyncedCues seconds_per_line (next :: rest)

/-- Fixed-interval branch of `_build_overlay_cues`, with `i` the index of
the current line: `start = i * seconds_per_line`,
`end = (i+1) * seconds_per_line`. -/
def buildFixedCues (seconds_per_line : ℚ) : ℕ → List (List Char) → List Cue
  | _, [] => []
  | i, line :: rest =>
    ⟨pyRound3 ((i : ℚ) * seconds_per_line), pyRound3 (((i : ℚ) + 1) * seconds_per_line), line⟩ ::
      buildFixedCues seconds_per_line (i + 1) rest

/-- Embedding of `_build_overlay_cues`: synced mode when `synced_cues` is
non-empty (Python truthiness also sends `None` here as `[]`), otherwise
fixed-interval mode over the plain lines. -/
def _build_overlay_cues (lines : List (List Char)) (seconds_per_line : ℚ)
    (synced_cues : List (ℚ × List Char)) : List Cue :=
  if synced_cues = [] then buildFixedCues seconds_per_line 0 lines
  else buildSyncedCues seconds_per_line synced_cues

/-! ### PlaybackCueTracker: `findCueIndex` and `renderCue` in the overlay
JS (src/main.py lines 540-567) -/

/-- Loop of `findCueIndex`: first index (offset by `k`) whose window
contains `t`. -/
def findCueIndexFrom (t : ℚ) : List Cue → ℕ → Option ℕ
  | [], _ => none
  | c :: rest, k =>
    if c.start ≤ t ∧ t < c.stop then some k else findCueIndexFrom t rest (k + 1)

/-- Embedding of the JS `findCueIndex`: first cue with
`start ≤ t < end`, else the last index for a non-empty list, else `-1`. -/
def findCueIndex (cues : List Cue) (t : ℚ) : ℤ :=
  match findCueIndexFrom t cues 0 with
  | some i => (i : ℤ)
  | none => if cues.length ≠ 0 then (cues.length : ℤ) - 1 else -1

/-- Splitting on whitespace runs with empty pieces dropped, as the JS
`text.split(/\s+/).filter(Boolean)`. Fuel is the input length. -/
def splitWsGo : ℕ → List Char → List (List Char)
  | 0, _ => []
  | _, [] => []
  | fuel + 1, c :: rest =>
    if isSpaceChar c then splitWsGo fuel rest
    else ((c :: rest).takeWhile (fun d => !(isSpaceChar d))) ::
      splitWsGo fuel ((c :: rest).dropWhile (fun d => !(isSpaceChar d)))

/-- Words of a text, as in the JS `renderCue`. -/
def splitWsWords (l : List Char) : List (List Char) := splitWsGo l.length l

/-- Active word index computed by the JS `renderCue`:
`duration = max(0.15, end - start)`,
`progress = clamp((t - start) / duration, 0, 0.999)`,
index `= min(wordCount - 1, floor(progress * wordCount))`. -/
def renderCueActiveIdx (cue : Cue) (t : ℚ) : ℕ :=
  let words := splitWsWords (pyStrip cue.text)
  let duration := max (3/20) (cue.stop - cue.start)
  let progress := min (999/1000) (max 0 ((t - cue.start) / duration))
  min (words.length - 1) (Int.toNat ⌊progress * (words.length : ℚ)⌋)

/-! ### ProviderClient: `_get_json_with_retries` (src/main.py lines 136-165) -/

/-- Maximum number of attempts (`LYRICS_MAX_RETRIES = 3`). -/
def LYRICS_MAX_RETRIES : ℕ := 3

/-- Backoff base (`LYRICS_BACKOFF_SECONDS = 1.2`). -/
def LYRICS_BACKOFF_SECONDS : ℚ := 6/5

/-- Classified network-layer failures of one request, mirroring the caught
`requests` exceptions: `HTTPError` (with the optional status code),
`Timeout`, `ConnectionError`, and the generic `RequestException` raised
after the loop when no error was recorded. -/
inductive NetErr where
  | httpErr (status : Option ℕ)
  | timeoutErr
  | connectionErr
  | requestErr
deriving DecidableEq

/-- Outcome of one HTTP attempt, as observed by the retry loop. -/
inductive AttemptOutcome (α : Type) where
  | success (payload : α)
  | httpErr (status : Option ℕ)
  | timeoutErr
  | connectionErr
deriving DecidableEq

/-- Retryable status test: `status_code in {408, 429, 500, 502, 503, 504}`
(`None` is not in the set). -/
def retryableStatus : Option ℕ → Bool
  | some s => [408, 429, 500, 502, 503, 504].contains s
  | none => false

/-- Observable trace of one `_get_json_with_retries` call: the returned
value or raised error, the number of HTTP calls issued, and the sequence of
sleep durations. -/
structure FetchTrace (α : Type) where
  result : Except NetErr α
  calls : ℕ
  sleeps : List ℚ

/-- The retry loop `for attempt in range(1, LYRICS_MAX_RETRIES + 1)`, with
the per-attempt outcomes supplied by `outcomes`. On success return; on
`HTTPError` retry (after sleeping `backoff * attempt`) only when another
attempt remains and the status is retryable, else re-raise; on timeout or
connection error retry whenever another attempt remains, else re-raise.
If the loop falls through (dead code in practice), re-raise the last error
or a generic `RequestException`. -/
def retryLoop {α : Type} (outcomes : ℕ → AttemptOutcome α) :
    ℕ → ℕ → Option NetErr → ℕ → List ℚ → FetchTrace α
  | 0, _, lastError, calls, sleeps =>
    { result := .error (lastError.getD .requestErr), calls := calls, sleeps := sleeps }
  | fuel + 1, attempt, _, calls, sleeps =>
    match outcomes attempt with
    | .success payload => { result := .ok payload, calls := calls + 1, sleeps := sleeps }
    | .httpErr s =>
      if attempt < LYRICS_MAX_RETRIES ∧ retryableStatus s = true then
        retryLoop outcomes fuel (attempt + 1) (some (.httpErr s)) (calls + 1)
          (sleeps ++ [LYRICS_BACKOFF_SECONDS * (attempt : ℚ)])
      else { result := .error (.httpErr s), calls := calls + 1, sleeps := sleeps }
    | .timeoutErr =>
      if attempt < LYRICS_MAX_RETRIES then
        retryLoop outcomes fuel (attempt + 1) (some .timeoutErr) (calls + 1)
          (sleeps ++ [LYRICS_BACKOFF_SECONDS * (attempt : ℚ)])
      else { result := .error .timeoutErr, calls := calls + 1, sleeps := sleeps }
    | .connectionErr =>
      if attempt < LYRICS_MAX_RETRIES then
        retryLoop outcomes fuel (attempt + 1) (some .connectionErr) (calls + 1)
          (sleeps ++ [LYRICS_BACKOFF_SECONDS * (attempt : ℚ)])
      else { result := .error .connectionErr, calls := calls + 1, sleeps := sleeps }

/-- Embedding of `_get_json_with_retries`, parameterised by the outcome of
each attempt. -/
def _get_json_with_retries {α : Type} (outcomes : ℕ → AttemptOutcome α) : FetchTrace α :=
  retryLoop outcomes LYRICS_MAX_RETRIES 1 none 0 []

/-- An attempt outcome on which the loop would move to the next attempt
(when one remains): any timeout or connection error, and an `HTTPError`
with retryable status. -/
def retriableOutcome {α : Type} : AttemptOutcome α → Bool
  | .success _ => false
  | .httpErr s => retryableStatus s
  | .timeoutErr => true
  | .connectionErr => true

/-- Value returned or error raised when the loop finishes at an attempt
with the given outcome. -/
def outcomeResult {α : Type} : AttemptOutcome α → Except NetErr α
  | .success p => .ok p
  | .httpErr s => .error (.httpErr s)
  | .timeoutErr => .error .timeoutErr
  | .connectionErr => .error .connectionErr

/-- Sleep durations after `c` retried attempts: `backoff * n` for
`n = 1, ..., c`. -/
def sleepSchedule (c : ℕ) : List ℚ :=
  (List.range c).map (fun n : ℕ => LYRICS_BACKOFF_SECONDS * (((n + 1 : ℕ)) : ℚ))

/-- Attempt outcomes of the scenario from the spec: HTTP 503 on the first
two attempts, success from the third on. -/
def scenario503 : ℕ → AttemptOutcome Unit :=
  fun k => if 3 ≤ k then .success () else .httpErr (some 503)

/-! ### LyricsResolver: `find_and_fetch_lyrics` and the two providers
(src/main.py lines 185-260 and 326-349) -/

/-- Failures caught by `find_and_fetch_lyrics`: any of the network-layer
`RequestException` subclasses, or a `ValueError` (the "not found" signal
raised by the provider functions). -/
inductive LyricsFailure where
  | netErr (e : NetErr)
  | valueError
deriving DecidableEq

/-- `isinstance(e, requests.exceptions.Timeout)`. -/
def isTimeoutFailure : LyricsFailure → Bool
  | .netErr .timeoutErr => true
  | _ => false

/-- `isinstance(e, ValueError)`. -/
def isValueErrorFailure : LyricsFailure → Bool
  | .valueError => true
  | _ => false

/-- A lyrics.ovh search candidate: the `title` field and the `artist.name`
field (blank models a missing field). -/
structure OvhCandidate where
  title : List Char
  artistName : List Char
deriving DecidableEq

/-- Resolved lyrics: `(lyrics, matched_title, matched_artist)`. -/
abbrev Resolved := List Char × List Char × List Char

/-- Embedding of `_find_and_fetch_lyrics_lyricsovh`. `searchResult` is the
outcome of the candidate search; `lyricsField` gives, per
`(artist, title)`, the outcome of the lyrics fetch (the optional `lyrics`
field of the decoded payload, stripped by `_fetch_lyrics`). -/
def _find_and_fetch_lyrics_lyricsovh (song_name : List Char)
    (searchResult : Except LyricsFailure (List OvhCandidate))
    (lyricsField : List Char → List Char → Except LyricsFailure (Option (List Char))) :
    Except LyricsFailure Resolved :=
  match searchResult with
  | .error e => .error e
  | .ok candidates =>
    match candidates with
    | [] => .error .valueError
    | c0 :: _ =>
      let target := pyLower (pyStrip song_name)
      let chosen := (candidates.find? (fun c => pyLower (pyStrip c.title) == target)).getD c0
      let matched_title := pyStrip chosen.title
      let matched_artist := pyStrip chosen.artistName
      if matched_title = [] ∨ matched_artist = [] then .error .valueError
      else
        match lyricsField matched_artist matched_title with
        | .error e => .error e
        | .ok field =>
          let lyrics := match field with
            | some s => pyStrip s
            | none => []
          if lyrics = [] then .error .valueError
          else .ok (lyrics, matched_title, matched_artist)

/-- An LRCLIB search result entry (blank models a missing field). -/
structure LrclibItem where
  trackName : List Char
  artistName : List Char
  plainLyrics : List Char
  syncedLyrics : List Char
deriving DecidableEq

/-- Embedding of `_find_and_fetch_lyrics_lrclib`. `searchResult` is the
outcome of the combined search call; an empty list also models a non-list
payload. -/
def _find_and_fetch_lyrics_lrclib (song_name : List Char)
    (searchResult : Except LyricsFailure (List LrclibItem)) :
    Except LyricsFailure Resolved :=
  match searchResult with
  | .error e => .error e
  | .ok payload =>
    match payload with
    | [] => .error .valueError
    | p0 :: _ =>
      let target := pyLower (pyStrip song_name)
      let chosen := (payload.find? (fun c => pyLower (pyStrip c.trackName) == target)).getD p0
      let matched_title := pyStrip chosen.trackName
      let matched_artist := pyStrip chosen.artistName
      if matched_title = [] ∨ matched_artist = [] then .error .valueError
      else
        let plain := pyStrip chosen.plainLyrics
        let lyrics := if plain = [] then pyStrip chosen.syncedLyrics else plain
        if lyrics = [] then .error .valueError
        else .ok (lyrics, matched_title, matched_artist)

/-- Embedding of `find_and_fetch_lyrics`, parameterised by the outcomes of
the primary and fallback provider attempts: return the first success; when
both fail, surface `Timeout` when both failures were timeouts, `ValueError`
when both were `ValueError`, and a generic `RequestException` otherwise. -/
def find_and_fetch_lyrics (primary fallback : Except LyricsFailure Resolved) :
    Except LyricsFailure Resolved :=
  match primary with
  | .ok r => .ok r
  | .error primary_error =>
    match fallback with
    | .ok r => .ok r
    | .error fallback_exc =>
      if isTimeoutFailure primary_error = true ∧ isTimeoutFailure fallback_exc = true then
        .error (.netErr .timeoutErr)
      else if isValueErrorFailure primary_error = true ∧ isValueErrorFailure fallback_exc = true then
        .error .valueError
      else .error (.netErr .requestErr)

/-! ## Claims -/

/-- C1: when both providers fail, the resolver surfaces exactly one
classified error determined by the pair of failures: a single timeout iff
both failures were timeouts, a single `ValueError` ("not found") iff both
failures were `ValueError`, and a generic `RequestException` in every other
combination; in particular, when both providers return empty search
results (a `ValueError` in each provider), the surfaced error is the
"not found" `ValueError`, not a network error. -/
theorem find_and_fetch_lyrics_error_composition :
    (∀ pe fe : LyricsFailure,
      (find_and_fetch_lyrics (.error pe) (.error fe) = .error (.netErr .timeoutErr) ↔
        pe = .netErr .timeoutErr ∧ fe = .netErr .timeoutErr)
      ∧ (find_and_fetch_lyrics (.error pe) (.error fe) = .error .valueError ↔
        pe = .valueError ∧ fe = .valueError)
      ∧ (¬(pe = .netErr .timeoutErr ∧ fe = .netErr .timeoutErr) →
         ¬(pe = .valueError ∧ fe = .valueError) →
         find_and_fetch_lyrics (.error pe) (.error fe) = .error (.netErr .requestErr)))
    ∧ (∀ (song : List Char)
        (fetchF : List Char → List Char → Except LyricsFailure (Option (List Char))),
        find_and_fetch_lyrics
          (_find_and_fetch_lyrics_lyricsovh song (.ok []) fetchF)
          (_find_and_fetch_lyrics_lrclib song (.ok [])) = .error .valueError) := by
  constructor
  · intro pe fe
    rcases pe with e1 | _ <;> rcases fe with e2 | _
    · rcases e1 with s1 | _ | _ | _ <;> rcases e2 with s2 | _ | _ | _ <;>
        simp [find_and_fetch_lyrics, isTimeoutFailure, isValueErrorFailure]
    · rcases e1 with s1 | _ | _ | _ <;>
        simp [find_and_fetch_lyrics, isTimeoutFailure, isValueErrorFailure]
    · rcases e2 with s2 | _ | _ | _ <;>
        simp [find_and_fetch_lyrics, isTimeoutFailure, isValueErrorFailure]
    · simp [find_and_fetch_lyrics, isTimeoutFailure, isValueErrorFailure]
  · intro song fetchF
    rfl

/-- C1 witness: a concrete mixed failure pair (a generic network failure on
the primary, "not found" on the fallback) surfaces the generic network
error. -/
theorem find_and_fetch_lyrics_error_composition_witness :
    find_and_fetch_lyrics (.error (.netErr .requestErr)) (.error .valueError) =
      .error (.netErr .requestErr) :=
  (find_and_fetch_lyrics_error_composition.1 (.netErr .requestErr) .valueError).2.2
    (by decide) (by decide)

/-- C10: in synced mode the output of `_build_overlay_cues` does not depend
on the plain-text `lines` argument. -/
theorem build_overlay_cues_synced_ignores_lines :
    ∀ (lines1 lines2 : List (List Char)) (s : ℚ) (synced : List (ℚ × List Char)),
      synced ≠ [] →
      _build_overlay_cues lines1 s synced = _build_overlay_cues lines2 s synced := by
  intro l1 l2 s sy h
  simp [_build_overlay_cues, h]

/-- C10 witness: two different line lists, same synced cues, same output. -/
theorem build_overlay_cues_synced_ignores_lines_witness :
    _build_overlay_cues [] 1 [(0, ['x'])] = _build_overlay_cues [['a']] 1 [(0, ['x'])] :=
  build_overlay_cues_synced_ignores_lines [] [['a']] 1 [(0, ['x'])] (by decide)

/-- Helper for C3: the scan returns `none` when no window contains `t`. -/
theorem findCueIndexFrom_none (t : ℚ) :
    ∀ (l : List Cue) (k : ℕ),
      (∀ (i : ℕ) (c : Cue), l[i]? = some c → ¬(c.start ≤ t ∧ t < c.stop)) →
      findCueIndexFrom t l k = none
  | [], _, _ => rfl
  | c :: rest, k, h => by
    have h0 := h 0 c (by simp)
    rw [findCueIndexFrom, if_neg h0]
    exact findCueIndexFrom_none t rest (k + 1) (fun i d hd => h (i + 1) d (by simpa using hd))

/-- Helper for C3: the scan returns the first index whose window contains
`t`, offset by the accumulator. -/
theorem findCueIndexFrom_some (t : ℚ) :
    ∀ (l : List Cue) (i k : ℕ) (c : Cue), l[i]? = some c → c.start ≤ t ∧ t < c.stop →
      (∀ (j : ℕ) (d : Cue), j < i → l[j]? = some d → ¬(d.start ≤ t ∧ t < d.stop)) →
      findCueIndexFrom t l k = some (k + i)
  | [], i, k, c, h, _, _ => by simp at h
  | c0 :: rest, 0, k, c, h, hw, _ => by
    simp only [List.getElem?_cons_zero, Option.some.injEq] at h
    subst h
    rw [findCueIndexFrom, if_pos hw]
    rfl
  | c0 :: rest, i + 1, k, c, h, hw, hj => by
    have h0 : ¬(c0.start ≤ t ∧ t < c0.stop) := hj 0 c0 (Nat.succ_pos i) (by simp)
    rw [findCueIndexFrom, if_neg h0]
    rw [findCueIndexFrom_some t rest i (k + 1) c (by simpa using h) hw
      (fun j d hji hjd => hj (j + 1) d (by omega) (by simpa using hjd))]
    congr 1
    omega

/-- C3: `findCueIndex` returns the first cue index whose window satisfies
`start ≤ t < end`; when no window contains `t` (also for `t` past the last
window or before the first), it returns the last index of a non-empty
list; for an empty list it returns `-1`. -/
theorem findCueIndex_first_match_or_last :
    ∀ (cues : List Cue) (t : ℚ),
      (cues = [] → findCueIndex cues t = -1)
      ∧ (∀ (i : ℕ) (c : Cue), cues[i]? = some c → c.start ≤ t ∧ t < c.stop →
          (∀ (j : ℕ) (d : Cue), j < i → cues[j]? = some d → ¬(d.start ≤ t ∧ t < d.stop)) →
          findCueIndex cues t = (i : ℤ))
      ∧ ((∀ (i : ℕ) (c : Cue), cues[i]? = some c → ¬(c.start ≤ t ∧ t < c.stop)) →
          cues ≠ [] → findCueIndex cues t = (cues.length : ℤ) - 1) := by
  intro cues t
  refine ⟨?_, ?_, ?_⟩
  · rintro rfl; rfl
  · intro i c h hw hj
    unfold findCueIndex
    rw [findCueIndexFrom_some t cues i 0 c h hw hj]
    simp
  · intro hnone hne
    unfold findCueIndex
    rw [findCueIndexFrom_none t cues 0 hnone]
    have hlen : cues.length ≠ 0 := by simpa [List.length_eq_zero] using hne
    simp [hlen]

/-- C3 witness: with windows `[0,1)` and `[1,2)`, time `1.5` resolves to
index 1 (the first and only matching window). -/
theorem findCueIndex_first_match_or_last_witness :
    findCueIndex [⟨0, 1, ['a']⟩, ⟨1, 2, ['b']⟩] (3/2) = 1 :=
  (findCueIndex_first_match_or_last [⟨0, 1, ['a']⟩, ⟨1, 2, ['b']⟩] (3/2)).2.1 1 ⟨1, 2, ['b']⟩
    (by decide) (by norm_num)
    (by
      intro j d hj hd
      interval_cases j
      simp only [List.getElem?_cons_zero, Option.some.injEq] at hd
      subst hd
      norm_num)

/-- The half-even rounding of `x` is at least `⌊x⌋`. -/
theorem pyRoundHalfEven_ge_floor (x : ℚ) : ⌊x⌋ ≤ pyRoundHalfEven x := by
  unfold pyRoundHalfEven
  split_ifs <;> omega

/-- The half-even rounding of `x` is at most `⌊x⌋ + 1`. -/
theorem pyRoundHalfEven_le_floor_add_one (x : ℚ) : pyRoundHalfEven x ≤ ⌊x⌋ + 1 := by
  unfold pyRoundHalfEven
  split_ifs <;> omega

/-- Half-even rounding is monotone. -/
theorem pyRoundHalfEven_mono {x y : ℚ} (h : x ≤ y) :
    pyRoundHalfEven x ≤ pyRoundHalfEven y := by
  by_cases hf : ⌊x⌋ = ⌊y⌋
  · have hab : x - (⌊x⌋ : ℚ) ≤ y - (⌊y⌋ : ℚ) := by rw [← hf]; linarith
    unfold pyRoundHalfEven
    split_ifs <;> first | omega | linarith
  · have hlt : ⌊x⌋ < ⌊y⌋ := lt_of_le_of_ne (Int.floor_le_floor h) hf
    calc pyRoundHalfEven x ≤ ⌊x⌋ + 1 := pyRoundHalfEven_le_floor_add_one x
      _ ≤ ⌊y⌋ := by omega
      _ ≤ pyRoundHalfEven y := pyRoundHalfEven_ge_floor y

/-- Half-even rounding commutes with adding an even integer (an odd shift
would flip the tie-breaking parity). -/
theorem pyRoundHalfEven_add_int (x : ℚ) (n : ℤ) (hn : n % 2 = 0) :
    pyRoundHalfEven (x + (n : ℚ)) = pyRoundHalfEven x + n := by
  unfold pyRoundHalfEven
  rw [Int.floor_add_int]
  have hfr : x + (n : ℚ) - ((⌊x⌋ + n : ℤ) : ℚ) = x - (⌊x⌋ : ℚ) := by push_cast; ring
  rw [hfr]
  split_ifs <;> omega

/-- `round(x, 3)` is monotone. -/
theorem pyRound3_mono {x y : ℚ} (h : x ≤ y) : pyRound3 x ≤ pyRound3 y := by
  unfold pyRound3
  have h1 := pyRoundHalfEven_mono (mul_le_mul_of_nonneg_right h (by norm_num : (0:ℚ) ≤ 1000))
  have h2 : (pyRoundHalfEven (x * 1000) : ℚ) ≤ (pyRoundHalfEven (y * 1000) : ℚ) := by
    exact_mod_cast h1
  linarith

/-- `round(x, 3)` commutes with adding `k/1000` for even `k`. -/
theorem pyRound3_add_div1000 (x : ℚ) (k : ℤ) (hk : k % 2 = 0) :
    pyRound3 (x + (k : ℚ) / 1000) = pyRound3 x + (k : ℚ) / 1000 := by
  unfold pyRound3
  have h1 : (x + (k : ℚ) / 1000) * 1000 = x * 1000 + (k : ℚ) := by ring
  rw [h1, pyRoundHalfEven_add_int _ k hk]
  push_cast
  ring

/-- `round(x, 3)` commutes with `max`. -/
theorem pyRound3_max (a b : ℚ) : pyRound3 (max a b) = max (pyRound3 a) (pyRound3 b) :=
  Monotone.map_max (fun _ _ h => pyRound3_mono h)

/-- `round(x, 3)` commutes with the shift by `0.15 = 150/1000`. -/
theorem pyRound3_add_015 (x : ℚ) : pyRound3 (x + 3/20) = pyRound3 x + 3/20 := by
  have hx : x + 3/20 = x + ((150 : ℤ) : ℚ) / 1000 := by push_cast; ring
  rw [hx, pyRound3_add_div1000 x 150 (by decide)]
  push_cast
  ring

/-- `round(x, 3)` commutes with the shift by `-0.05 = -50/1000`. -/
theorem pyRound3_sub_005 (x : ℚ) : pyRound3 (x - 1/20) = pyRound3 x - 1/20 := by
  have hx : x - 1/20 = x + ((-50 : ℤ) : ℚ) / 1000 := by push_cast; ring
  rw [hx, pyRound3_add_div1000 x (-50) (by decide)]
  push_cast
  ring

/-- `round(x, 3)` commutes with the shift by `2 = 2000/1000`. -/
theorem pyRound3_add_two (x : ℚ) : pyRound3 (x + 2) = pyRound3 x + 2 := by
  have hx : x + 2 = x + ((2000 : ℤ) : ℚ) / 1000 := by push_cast; ring
  rw [hx, pyRound3_add_div1000 x 2000 (by decide)]
  push_cast
  ring

/-- The synced builder produces one cue per synced entry. -/
theorem buildSyncedCues_length (s : ℚ) :
    ∀ l : List (ℚ × List Char), (buildSyncedCues s l).length = l.length
  | [] => rfl
  | [x] => rfl
  | x :: y :: rest => by
    simp [buildSyncedCues, buildSyncedCues_length s (y :: rest)]

/-- Elementwise description of the synced builder: cue `i` starts at the
rounded `i`-th synced time and ends at the rounded
`max(start + 0.15, next_start - 0.05)` (or `start + max(2, s)` for the last
entry). -/
theorem buildSyncedCues_getElem (s : ℚ) :
    ∀ (l : List (ℚ × List Char)) (i : ℕ) (a : ℚ × List Char), l[i]? = some a →
      (buildSyncedCues s l)[i]? = some ⟨pyRound3 a.1,
        pyRound3 (match l[i + 1]? with
          | some b => max (a.1 + 3/20) (b.1 - 1/20)
          | none => a.1 + max 2 s), a.2⟩
  | [], i, a, h => by simp at h
  | [x], 0, a, h => by
    simp only [List.getElem?_cons_zero, Option.some.injEq] at h
    subst h
    simp [buildSyncedCues]
  | [x], i + 1, a, h => by
    simp at h
  | x :: y :: rest, 0, a, h => by
    simp only [List.getElem?_cons_zero, Option.some.injEq] at h
    subst h
    simp [buildSyncedCues]
  | x :: y :: rest, i + 1, a, h => by
    have ih := buildSyncedCues_getElem s (y :: rest) i a (by simpa using h)
    simpa [buildSyncedCues] using ih

/-- C5: in synced mode, cue `i` with a successor gets
`end = max(start_i + 0.15, start_of_next - 0.05)` and the last cue gets
`end = start + max(2, secondsPerLine)` (both rounded to milliseconds);
consequently every output cue satisfies `end ≥ start + 0.15`, and
`end_i ≤ start_of_next - 0.05` whenever the output starts are at least
`0.20` apart. -/
theorem build_overlay_cues_synced_windows :
    ∀ (lines : List (List Char)) (synced : List (ℚ × List Char)) (s : ℚ),
      synced ≠ [] →
      (∀ (i : ℕ) (a b : ℚ × List Char), synced[i]? = some a → synced[i + 1]? = some b →
        (_build_overlay_cues lines s synced)[i]? =
          some ⟨pyRound3 a.1, pyRound3 (max (a.1 + 3/20) (b.1 - 1/20)), a.2⟩)
      ∧ (∀ (i : ℕ) (a : ℚ × List Char), synced[i]? = some a → synced[i + 1]? = none →
        (_build_overlay_cues lines s synced)[i]? =
          some ⟨pyRound3 a.1, pyRound3 (a.1 + max 2 s), a.2⟩)
      ∧ (∀ (i : ℕ) (c : Cue), (_build_overlay_cues lines s synced)[i]? = some c →
          c.start + 3/20 ≤ c.stop)
      ∧ (∀ (i : ℕ) (c d : Cue), (_build_overlay_cues lines s synced)[i]? = some c →
          (_build_overlay_cues lines s synced)[i + 1]? = some d →
          1/5 ≤ d.start - c.start → c.stop ≤ d.start - 1/20) := by
  intro lines synced s hne
  have hb : _build_overlay_cues lines s synced = buildSyncedCues s synced := by
    simp [_build_overlay_cues, hne]
  refine ⟨?_, ?_, ?_, ?_⟩
  · intro i a b ha hbn
    rw [hb, buildSyncedCues_getElem s synced i a ha, hbn]
  · intro i a ha hbn
    rw [hb, buildSyncedCues_getElem s synced i a ha, hbn]
  · intro i c hc
    rw [hb] at hc
    have hi : i < synced.length := by
      by_contra hge
      rw [List.getElem?_eq_none (by rw [buildSyncedCues_length]; omega)] at hc
      exact Option.noConfusion hc
    obtain ⟨a, ha⟩ : ∃ a, synced[i]? = some a :=
      ⟨synced[i], (List.getElem?_eq_some).mpr ⟨hi, rfl⟩⟩
    rw [buildSyncedCues_getElem s synced i a ha] at hc
    rcases hnext : synced[i + 1]? with _ | b
    · rw [hnext] at hc
      simp only [Option.some.injEq] at hc
      subst hc
      simp only
      have h1 : pyRound3 (a.1 + 2) ≤ pyRound3 (a.1 + max 2 s) :=
        pyRound3_mono (by have := le_max_left (2 : ℚ) s; linarith)
      rw [pyRound3_add_two] at h1
      linarith
    · rw [hnext] at hc
      simp only [Option.some.injEq] at hc
      subst hc
      simp only
      have h1 : pyRound3 (a.1 + 3/20) ≤ pyRound3 (max (a.1 + 3/20) (b.1 - 1/20)) :=
        pyRound3_mono (le_max_left _ _)
      rw [pyRound3_add_015] at h1
      linarith
  · intro i c d hc hd hgap
    rw [hb] at hc hd
    have hi1 : i + 1 < synced.length := by
      by_contra hge
      rw [List.getElem?_eq_none (by rw [buildSyncedCues_length]; omega)] at hd
      exact Option.noConfusion hd
    obtain ⟨a, ha⟩ : ∃ a, synced[i]? = some a :=
      ⟨synced[i], (List.getElem?_eq_some).mpr ⟨by omega, rfl⟩⟩
    obtain ⟨b, hbn⟩ : ∃ b, synced[i + 1]? = some b :=
      ⟨synced[i + 1], (List.getElem?_eq_some).mpr ⟨hi1, rfl⟩⟩
    rw [buildSyncedCues_getElem s synced i a ha, hbn] at hc
    rw [buildSyncedCues_getElem s synced (i + 1) b hbn] at hd
    simp only [Option.some.injEq] at hc hd
    subst hc
    have hdstart : d.start = pyRound3 b.1 := by rw [← hd]
    simp only [hdstart] at hgap ⊢
    rw [pyRound3_max, pyRound3_add_015, pyRound3_sub_005]
    have : pyRound3 a.1 + 3/20 ≤ pyRound3 b.1 - 1/20 := by linarith
    exact max_le this (le_refl _)

/-- C5 witness: two synced cues `0.2` apart (starts `1.0` and `1.2`) give
the first cue the window end `max(1.15, 1.15) = 1.15`, which is both
`start + 0.15` and `next_start - 0.05`. -/
theorem build_overlay_cues_synced_windows_witness :
    (_build_overlay_cues [] 1 [(1, ['a']), (6/5, ['b'])])[0]? =
      some ⟨pyRound3 1, pyRound3 (max (1 + 3/20) (6/5 - 1/20)), ['a']⟩ :=
  (build_overlay_cues_synced_windows [] [(1, ['a']), (6/5, ['b'])] 1 (by decide)).1
    0 (1, ['a']) (6/5, ['b']) (by decide) (by decide)

/-- The fixed-interval builder produces one cue per line. -/
theorem buildFixedCues_length (s : ℚ) :
    ∀ (k : ℕ) (l : List (List Char)), (buildFixedCues s k l).length = l.length
  | _, [] => rfl
  | k, x :: rest => by
    simp [buildFixedCues, buildFixedCues_length s (k + 1) rest]

/-- Elementwise description of the fixed-interval builder (with running
index offset `k`). -/
theorem buildFixedCues_getElem (s : ℚ) :
    ∀ (l : List (List Char)) (k i : ℕ) (a : List Char), l[i]? = some a →
      (buildFixedCues s k l)[i]? =
        some ⟨pyRound3 (((k + i : ℕ) : ℚ) * s), pyRound3 ((((k + i : ℕ) : ℚ) + 1) * s), a⟩
  | [], _, i, a, h => by simp at h
  | x :: rest, k, 0, a, h => by
    simp only [List.getElem?_cons_zero, Option.some.injEq] at h
    subst h
    simp [buildFixedCues]
  | x :: rest, k, i + 1, a, h => by
    have ih := buildFixedCues_getElem s rest (k + 1) i a (by simpa using h)
    have hk : k + 1 + i = k + (i + 1) := by omega
    rw [hk] at ih
    simpa [buildFixedCues] using ih

/-- C7: in fixed-interval mode with `n` lines, the builder produces exactly
`n` cues, cue `i` is `(round3(i*s), round3((i+1)*s), line_i)` (so input
line order is preserved), adjacent windows share their boundary (no gaps
or overlaps), the first window starts at `0`, the last ends at
`round3(n*s)`, and empty input yields an empty list. -/
theorem build_overlay_cues_fixed_tiling :
    ∀ (lines : List (List Char)) (s : ℚ),
      (_build_overlay_cues lines s []).length = lines.length
      ∧ (∀ (i : ℕ) (a : List Char), lines[i]? = some a →
          (_build_overlay_cues lines s [])[i]? =
            some ⟨pyRound3 ((i : ℚ) * s), pyRound3 (((i : ℚ) + 1) * s), a⟩)
      ∧ (∀ (i : ℕ) (c d : Cue), (_build_overlay_cues lines s [])[i]? = some c →
          (_build_overlay_cues lines s [])[i + 1]? = some d → c.stop = d.start)
      ∧ (∀ c : Cue, (_build_overlay_cues lines s [])[0]? = some c → c.start = 0)
      ∧ (∀ (i : ℕ) (c : Cue), (_build_overlay_cues lines s [])[i]? = some c →
          i + 1 = lines.length → c.stop = pyRound3 ((lines.length : ℚ) * s))
      ∧ (lines = [] → _build_overlay_cues lines s [] = []) := by
  intro lines s
  have hb : _build_overlay_cues lines s [] = buildFixedCues s 0 lines := by
    simp [_build_overlay_cues]
  have hget : ∀ (i : ℕ) (a : List Char), lines[i]? = some a →
      (_build_overlay_cues lines s [])[i]? =
        some ⟨pyRound3 ((i : ℚ) * s), pyRound3 (((i : ℚ) + 1) * s), a⟩ := by
    intro i a h
    rw [hb]
    have := buildFixedCues_getElem s lines 0 i a h
    simpa using this
  have hsome : ∀ (i : ℕ) (c : Cue), (_build_overlay_cues lines s [])[i]? = some c →
      ∃ a, lines[i]? = some a := by
    intro i c hc
    rw [hb] at hc
    have hi : i < lines.length := by
      by_contra hge
      rw [List.getElem?_eq_none (by rw [buildFixedCues_length]; omega)] at hc
      exact Option.noConfusion hc
    exact ⟨lines[i], (List.getElem?_eq_some).mpr ⟨hi, rfl⟩⟩
  refine ⟨by rw [hb]; exact buildFixedCues_length s 0 lines, hget, ?_, ?_, ?_, ?_⟩
  · intro i c d hc hd
    obtain ⟨a, ha⟩ := hsome i c hc
    obtain ⟨b, hbn⟩ := hsome (i + 1) d hd
    rw [hget i a ha] at hc
    rw [hget (i + 1) b hbn] at hd
    simp only [Option.some.injEq] at hc hd
    subst hc
    have : d.start = pyRound3 (((i + 1 : ℕ) : ℚ) * s) := by rw [← hd]
    rw [this]
    simp only
    congr 1
    push_cast
    ring
  · intro c hc
    obtain ⟨a, ha⟩ := hsome 0 c hc
    rw [hget 0 a ha] at hc
    simp only [Option.some.injEq] at hc
    subst hc
    simp only
    norm_num [pyRound3, pyRoundHalfEven]
  · intro i c hc hlen
    obtain ⟨a, ha⟩ := hsome i c hc
    rw [hget i a ha] at hc
    simp only [Option.some.injEq] at hc
    subst hc
    simp only
    congr 1
    rw [← hlen]
    push_cast
    ring
  · rintro rfl
    rw [hb]
    rfl

/-- C7 witness: two lines with `s = 2.8` give the second cue the window
`[round3(2.8), round3(5.6))` with its own text. -/
theorem build_overlay_cues_fixed_tiling_witness :
    (_build_overlay_cues [['a'], ['b']] (14/5) [])[1]? =
      some ⟨pyRound3 ((1 : ℚ) * (14/5)), pyRound3 (((1 : ℚ) + 1) * (14/5)), ['b']⟩ :=
  (build_overlay_cues_fixed_tiling [['a'], ['b']] (14/5)).2.1 1 ['b'] rfl

/-- C8: the active word index follows the uniform-progress formula
`min(wordCount - 1, floor(clamp((t - start)/max(0.15, end - start), 0, 0.999) * wordCount))`;
for the cue `"one two three"` with window `[10, 13)` it is `0` at `t = 10`,
`1` at `t = 11.1` and `2` at `t = 12.9`; and for a fixed cue it is
monotonically non-decreasing in `t`. -/
theorem renderCue_active_word :
    (∀ (cue : Cue) (t : ℚ),
      renderCueActiveIdx cue t =
        min ((splitWsWords (pyStrip cue.text)).length - 1)
          (Int.toNat ⌊(min (999/1000) (max 0 ((t - cue.start) / max (3/20) (cue.stop - cue.start)))) *
            ((splitWsWords (pyStrip cue.text)).length : ℚ)⌋))
    ∧ (∀ (cue : Cue) (t1 t2 : ℚ), t1 ≤ t2 →
        renderCueActiveIdx cue t1 ≤ renderCueActiveIdx cue t2)
    ∧ renderCueActiveIdx ⟨10, 13, "one two three".toList⟩ 10 = 0
    ∧ renderCueActiveIdx ⟨10, 13, "one two three".toList⟩ (111/10) = 1
    ∧ renderCueActiveIdx ⟨10, 13, "one two three".toList⟩ (129/10) = 2 := by
  refine ⟨fun cue t => rfl, ?_, by decide, by decide, by decide⟩
  intro cue t1 t2 h
  unfold renderCueActiveIdx
  have hd : (0 : ℚ) < max (3/20) (cue.stop - cue.start) :=
    lt_of_lt_of_le (by norm_num) (le_max_left _ _)
  have hp : min (999/1000) (max 0 ((t1 - cue.start) / max (3/20) (cue.stop - cue.start))) ≤
      min (999/1000) (max 0 ((t2 - cue.start) / max (3/20) (cue.stop - cue.start))) := by
    refine min_le_min (le_refl _) (max_le_max (le_refl _) ?_)
    exact (div_le_div_iff_of_pos_right hd).mpr (by linarith)
  refine min_le_min (le_refl _) ?_
  refine Int.toNat_le_toNat (Int.floor_le_floor ?_)
  exact mul_le_mul_of_nonneg_right hp (by positivity)

/-- C8 witness: monotonicity instantiated inside the concrete window. -/
theorem renderCue_active_word_witness :
    renderCueActiveIdx ⟨10, 13, "one two three".toList⟩ 10 ≤
      renderCueActiveIdx ⟨10, 13, "one two three".toList⟩ (129/10) :=
  renderCue_active_word.2.1 ⟨10, 13, "one two three".toList⟩ 10 (129/10) (by norm_num)


/-- One more retried attempt extends the sleep schedule by
`backoff * (c + 1)`. -/
theorem sleepSchedule_succ (c : ℕ) :
    sleepSchedule (c + 1) = sleepSchedule c ++ [LYRICS_BACKOFF_SECONDS * (((c + 1 : ℕ)) : ℚ)] := by
  unfold sleepSchedule
  rw [List.range_succ, List.map_append]
  rfl

/-- Behaviour of a finished retry loop relative to the outcome oracle `o`,
for a run that starts after `calls0` already-performed attempts. -/
def RetrySpec {α : Type} (o : ℕ → AttemptOutcome α) (calls0 : ℕ) (t : FetchTrace α) : Prop :=
  (calls0 + 1 ≤ t.calls ∧ t.calls ≤ LYRICS_MAX_RETRIES)
  ∧ t.sleeps = sleepSchedule (t.calls - 1)
  ∧ (∀ k, calls0 + 1 ≤ k → k < t.calls → retriableOutcome (o k) = true)
  ∧ t.result = outcomeResult (o t.calls)
  ∧ (t.calls < LYRICS_MAX_RETRIES → retriableOutcome (o t.calls) = false)

/-- Invariant of the retry loop, by induction on the remaining fuel. -/
theorem retryLoop_invariant {α : Type} (o : ℕ → AttemptOutcome α) :
    ∀ (fuel calls : ℕ) (lastErr : Option NetErr),
      1 ≤ fuel → fuel + calls = LYRICS_MAX_RETRIES →
      RetrySpec o calls (retryLoop o fuel (calls + 1) lastErr calls (sleepSchedule calls)) := by
  intro fuel
  induction fuel with
  | zero => intro calls lastErr h1 _; omega
  | succ fuel ih =>
    intro calls lastErr _ h2
    simp only [LYRICS_MAX_RETRIES] at h2
    rcases ho : o (calls + 1) with p | st | _ | _
    · -- success: stop with `ok`
      simp only [retryLoop, ho]
      unfold RetrySpec
      refine ⟨⟨by simp, by simp [LYRICS_MAX_RETRIES]; omega⟩, by simp,
        fun k hk1 hk2 => False.elim (by simp at hk2; omega), by simp [ho, outcomeResult],
        fun _ => by simp [ho, retriableOutcome]⟩
    · -- HTTPError: retry only when attempts remain and the status is retryable
      by_cases hr : calls + 1 < LYRICS_MAX_RETRIES ∧ retryableStatus st = true
      · have hf : 1 ≤ fuel := by
          have h3 := hr.1
          simp only [LYRICS_MAX_RETRIES] at h3
          omega
        have ihs := ih (calls + 1) (some (.httpErr st)) hf
          (by simp only [LYRICS_MAX_RETRIES]; omega)
        simp only [retryLoop, ho, if_pos hr]
        rw [← sleepSchedule_succ calls]
        unfold RetrySpec at ihs ⊢
        obtain ⟨⟨ih1a, ih1b⟩, ih2, ih3, ih4, ih5⟩ := ihs
        refine ⟨⟨by omega, ih1b⟩, ih2, ?_, ih4, ih5⟩
        intro k hk1 hk2
        rcases eq_or_lt_of_le hk1 with heq | hlt
        · rw [← heq, ho]
          simpa [retriableOutcome] using hr.2
        · exact ih3 k (by omega) hk2
      · simp only [retryLoop, ho, if_neg hr]
        unfold RetrySpec
        refine ⟨⟨by simp, by simp [LYRICS_MAX_RETRIES]; omega⟩, by simp,
          fun k hk1 hk2 => False.elim (by simp at hk2; omega),
          by simp [ho, outcomeResult], ?_⟩
        intro hlt
        have hlt3 : calls + 1 < 3 := by simpa [LYRICS_MAX_RETRIES] using hlt
        have hst : retryableStatus st = false := by
          rcases Bool.eq_false_or_eq_true (retryableStatus st) with hb | hb
          · exact absurd ⟨by simpa [LYRICS_MAX_RETRIES] using hlt3, hb⟩ hr
          · exact hb
        simp [ho, retriableOutcome, hst]
    · -- Timeout: always retried while attempts remain
      by_cases hr : calls + 1 < LYRICS_MAX_RETRIES
      · have hf : 1 ≤ fuel := by
          simp only [LYRICS_MAX_RETRIES] at hr
          omega
        have ihs := ih (calls + 1) (some .timeoutErr) hf
          (by simp only [LYRICS_MAX_RETRIES]; omega)
        simp only [retryLoop, ho, if_pos hr]
        rw [← sleepSchedule_succ calls]
        unfold RetrySpec at ihs ⊢
        obtain ⟨⟨ih1a, ih1b⟩, ih2, ih3, ih4, ih5⟩ := ihs
        refine ⟨⟨by omega, ih1b⟩, ih2, ?_, ih4, ih5⟩
        intro k hk1 hk2
        rcases eq_or_lt_of_le hk1 with heq | hlt
        · rw [← heq, ho]; rfl
        · exact ih3 k (by omega) hk2
      · simp only [retryLoop, ho, if_neg hr]
        unfold RetrySpec
        refine ⟨⟨by simp, by simp [LYRICS_MAX_RETRIES]; omega⟩, by simp,
          fun k hk1 hk2 => False.elim (by simp at hk2; omega),
          by simp [ho, outcomeResult], ?_⟩
        intro hlt
        exact absurd (by simpa using hlt) hr
    · -- ConnectionError: always retried while attempts remain
      by_cases hr : calls + 1 < LYRICS_MAX_RETRIES
      · have hf : 1 ≤ fuel := by
          simp only [LYRICS_MAX_RETRIES] at hr
          omega
        have ihs := ih (calls + 1) (some .connectionErr) hf
          (by simp only [LYRICS_MAX_RETRIES]; omega)
        simp only [retryLoop, ho, if_pos hr]
        rw [← sleepSchedule_succ calls]
        unfold RetrySpec at ihs ⊢
        obtain ⟨⟨ih1a, ih1b⟩, ih2, ih3, ih4, ih5⟩ := ihs
        refine ⟨⟨by omega, ih1b⟩, ih2, ?_, ih4, ih5⟩
        intro k hk1 hk2
        rcases eq_or_lt_of_le hk1 with heq | hlt
        · rw [← heq, ho]; rfl
        · exact ih3 k (by omega) hk2
      · simp only [retryLoop, ho, if_neg hr]
        unfold RetrySpec
        refine ⟨⟨by simp, by simp [LYRICS_MAX_RETRIES]; omega⟩, by simp,
          fun k hk1 hk2 => False.elim (by simp at hk2; omega),
          by simp [ho, outcomeResult], ?_⟩
        intro hlt
        exact absurd (by simpa using hlt) hr

/-- C2: `_get_json_with_retries` makes between 1 and 3 HTTP attempts; the
sleep between attempt `n` and attempt `n + 1` is exactly
`1.2 * n` seconds (linearly increasing, not exponential); every non-final
attempt failed retryably (an HTTP error with status in
{408, 429, 500, 502, 503, 504}, a timeout, or a connection error — so a
non-retryable HTTP error is never followed by another attempt); the
returned result is the value, or re-raised error, of the final attempt;
and the loop stops before exhausting its attempts only when the final
outcome is not retryable (a success or a non-retryable HTTP error —
timeouts and connection errors are always retried). Concretely, HTTP 503
twice followed by a success issues exactly 3 calls and 2 sleeps (1.2 s
then 2.4 s) and raises no error. -/
theorem get_json_with_retries_retry_policy :
    (∀ (α : Type) (outcomes : ℕ → AttemptOutcome α),
      (1 ≤ (_get_json_with_retries outcomes).calls
        ∧ (_get_json_with_retries outcomes).calls ≤ LYRICS_MAX_RETRIES)
      ∧ (_get_json_with_retries outcomes).sleeps =
          sleepSchedule ((_get_json_with_retries outcomes).calls - 1)
      ∧ (∀ k, 1 ≤ k → k < (_get_json_with_retries outcomes).calls →
          retriableOutcome (outcomes k) = true)
      ∧ (_get_json_with_retries outcomes).result =
          outcomeResult (outcomes (_get_json_with_retries outcomes).calls)
      ∧ ((_get_json_with_retries outcomes).calls < LYRICS_MAX_RETRIES →
          retriableOutcome (outcomes (_get_json_with_retries outcomes).calls) = false))
    ∧ (_get_json_with_retries scenario503).calls = 3
    ∧ (_get_json_with_retries scenario503).sleeps =
        [LYRICS_BACKOFF_SECONDS * 1, LYRICS_BACKOFF_SECONDS * 2]
    ∧ (_get_json_with_retries scenario503).result = .ok () := by
  refine ⟨?_, by decide, by decide, rfl⟩
  intro α o
  exact retryLoop_invariant o LYRICS_MAX_RETRIES 0 none (by decide) (by decide)

/-- C2 witness: in the 503/503/success scenario, the first attempt (an
HTTP 503, which precedes the final call) is a retryable failure. -/
theorem get_json_with_retries_retry_policy_witness :
    retriableOutcome (scenario503 1) = true :=
  (get_json_with_retries_retry_policy.1 Unit scenario503).2.2.1 1 (le_refl 1) (by decide)

/-- Dropping a satisfying prefix twice is the same as dropping it once. -/
theorem dropWhile_dropWhile_eq {p : Char → Bool} :
    ∀ l : List Char, (l.dropWhile p).dropWhile p = l.dropWhile p
  | [] => rfl
  | c :: rest => by
    by_cases h : p c = true
    · rw [List.dropWhile_cons, if_pos h]
      exact dropWhile_dropWhile_eq rest
    · rw [List.dropWhile_cons, if_neg h, List.dropWhile_cons, if_neg h]

/-- The head surviving a `dropWhile` does not satisfy the predicate. -/
theorem dropWhile_head_eq_false {p : Char → Bool} :
    ∀ (l : List Char) (c : Char) (cs : List Char), l.dropWhile p = c :: cs → p c = false
  | [], c, cs, h => by simp at h
  | a :: rest, c, cs, h => by
    by_cases ha : p a = true
    · rw [List.dropWhile_cons, if_pos ha] at h
      exact dropWhile_head_eq_false rest c cs h
    · rw [List.dropWhile_cons, if_neg ha] at h
      cases h
      exact Bool.eq_false_iff.mpr ha

/-- A left-trimmed string stays left-trimmed after right trimming. -/
theorem dropWhile_of_trimRight {p : Char → Bool} (m : List Char)
    (hm : m.dropWhile p = m) :
    ((m.reverse.dropWhile p).reverse).dropWhile p = (m.reverse.dropWhile p).reverse := by
  rcases hX : (m.reverse.dropWhile p).reverse with _ | ⟨c, cs⟩
  · rfl
  · obtain ⟨t, ht⟩ := List.dropWhile_suffix (l := m.reverse) p
    have hmeq : (m.reverse.dropWhile p).reverse ++ t.reverse = m := by
      have h1 := congrArg List.reverse ht
      rwa [List.reverse_append, List.reverse_reverse] at h1
    have hmc : m = c :: (cs ++ t.reverse) := by
      rw [← hmeq, hX]
      rfl
    have hc : p c = false := by
      refine dropWhile_head_eq_false m c (cs ++ t.reverse) ?_
      rw [hm, hmc]
    rw [List.dropWhile_cons, if_neg (by simp [hc])]

/-- Python `strip` is idempotent: stripped text has no leading or trailing
whitespace left. -/
theorem pyStrip_idem (l : List Char) : pyStrip (pyStrip l) = pyStrip l := by
  unfold pyStrip
  rw [dropWhile_of_trimRight (l.dropWhile isSpaceChar) (dropWhile_dropWhile_eq l)]
  rw [List.reverse_reverse, dropWhile_dropWhile_eq]

/-- The kept cues are a sublist of the sorted cues. -/
theorem dedupNeLast_sublist :
    ∀ (l : List (ℚ × List Char)) (last : ℚ × List Char), (dedupNeLast last l).Sublist l
  | [], _ => List.Sublist.refl []
  | c :: rest, last => by
    by_cases h : c = last
    · rw [dedupNeLast, if_pos h]
      exact (dedupNeLast_sublist rest c).cons c
    · rw [dedupNeLast, if_neg h]
      exact (dedupNeLast_sublist rest c).cons₂ c

/-- Deduplication keeps a sublist. -/
theorem dedupConsecutive_sublist : ∀ l : List (ℚ × List Char), (dedupConsecutive l).Sublist l
  | [] => List.Sublist.refl []
  | c :: rest => (dedupNeLast_sublist rest c).cons₂ c

/-- After deduplication, the first kept cue differs from `last` and no two
adjacent kept cues are equal. -/
theorem dedupNeLast_chain :
    ∀ (l : List (ℚ × List Char)) (last : ℚ × List Char),
      (∀ y, (dedupNeLast last l).head? = some y → y ≠ last)
      ∧ (dedupNeLast last l).Chain' (· ≠ ·)
  | [], last => ⟨fun y h => by simp [dedupNeLast] at h, by simp [dedupNeLast]⟩
  | c :: rest, last => by
    by_cases h : c = last
    · rw [dedupNeLast, if_pos h]
      obtain ⟨h1, h2⟩ := dedupNeLast_chain rest c
      subst h
      exact ⟨h1, h2⟩
    · rw [dedupNeLast, if_neg h]
      obtain ⟨h1, h2⟩ := dedupNeLast_chain rest c
      refine ⟨fun y hy => ?_, ?_⟩
      · simp only [List.head?_cons, Option.some.injEq] at hy
        rw [← hy]
        exact h
      · rw [List.chain'_cons']
        exact ⟨fun y hy => (h1 y hy).symm, h2⟩

/-- Deduplicated output has pairwise-distinct adjacent entries. -/
theorem dedupConsecutive_chain :
    ∀ l : List (ℚ × List Char), (dedupConsecutive l).Chain' (· ≠ ·)
  | [] => List.chain'_nil
  | c :: rest => by
    rw [dedupConsecutive, List.chain'_cons']
    obtain ⟨h1, h2⟩ := dedupNeLast_chain rest c
    exact ⟨fun y hy => (h1 y hy).symm, h2⟩

/-- Every pair produced by a single line has a non-negative time and the
shared stripped, non-empty lyric text. -/
theorem lineCues_mem {p : ℚ × List Char} {line : List Char} (hp : p ∈ lineCues line) :
    0 ≤ p.1 ∧ p.2 ≠ [] ∧ pyStrip p.2 = p.2 := by
  unfold lineCues at hp
  rcases hl : leadingTimestamps line with ⟨tss, rem⟩
  rw [hl] at hp
  rcases tss with _ | ⟨ts0, tss⟩
  · simp at hp
  · simp only at hp
    by_cases hly : pyStrip rem = []
    · rw [if_pos hly] at hp
      simp at hp
    · rw [if_neg hly] at hp
      rw [List.mem_map] at hp
      obtain ⟨ts, _, hts⟩ := hp
      obtain ⟨mm, ss, frac⟩ := ts
      rw [← hts]
      refine ⟨?_, hly, pyStrip_idem rem⟩
      unfold tsSeconds
      positivity

/-- C9: every pair emitted by the parser has a non-negative time (the
timestamp fields are unsigned digit strings) and non-empty text with no
leading or trailing whitespace; a line whose trailing text strips to
empty contributes no pairs at all. -/
theorem parse_lrc_output_invariants :
    (∀ (lrc : List Char) (p : ℚ × List Char), p ∈ parse_lrc_synced_lines lrc →
      0 ≤ p.1 ∧ p.2 ≠ [] ∧ pyStrip p.2 = p.2)
    ∧ (∀ line : List Char, pyStrip (leadingTimestamps line).2 = [] → lineCues line = []) := by
  constructor
  · intro lrc p hp
    unfold parse_lrc_synced_lines at hp
    by_cases hlrc : lrc = []
    · rw [if_pos hlrc] at hp
      simp at hp
    · rw [if_neg hlrc] at hp
      simp only at hp
      have hp2 := (dedupConsecutive_sublist _).subset hp
      have hp3 := ((List.perm_insertionSort cueTimeLE _).mem_iff).mp hp2
      rw [List.mem_flatMap] at hp3
      obtain ⟨line, _, hpline⟩ := hp3
      by_cases hline : line = []
      · rw [if_pos hline] at hpline
        simp at hpline
      · rw [if_neg hline] at hpline
        exact lineCues_mem hpline
  · intro line hstrip
    unfold lineCues
    rcases hl : leadingTimestamps line with ⟨tss, rem⟩
    rw [hl] at hstrip
    rcases tss with _ | ⟨ts0, tss⟩
    · rfl
    · simp only at hstrip ⊢
      rw [if_pos hstrip]

/-- C9 witness: the pair parsed from `"[00:01.50]hello"` has a
non-negative time and stripped, non-empty text. -/
theorem parse_lrc_output_invariants_witness :
    0 ≤ ((3/2 : ℚ), "hello".toList).1
      ∧ ((3/2 : ℚ), "hello".toList).2 ≠ []
      ∧ pyStrip ((3/2 : ℚ), "hello".toList).2 = ((3/2 : ℚ), "hello".toList).2 :=
  parse_lrc_output_invariants.1 "[00:01.50]hello".toList ((3/2 : ℚ), "hello".toList)
    (by decide)

/-- C6 (amended): the parser output is sorted in non-decreasing time order
and has no two equal adjacent `(time, text)` pairs — the dedup pass removes
only consecutive duplicates after a stable sort on the time alone, so an
identical pair may still occur twice when an equal-time entry with
different text sits between the occurrences (see the counterexample). -/
theorem parse_lrc_sorted_and_adjacent_distinct :
    ∀ lrc : List Char,
      (parse_lrc_synced_lines lrc).Pairwise cueTimeLE
      ∧ (parse_lrc_synced_lines lrc).Chain' (· ≠ ·) := by
  intro lrc
  unfold parse_lrc_synced_lines
  by_cases hlrc : lrc = []
  · rw [if_pos hlrc]
    exact ⟨List.Pairwise.nil, List.chain'_nil⟩
  · rw [if_neg hlrc]
    simp only
    constructor
    · exact List.Pairwise.sublist (dedupConsecutive_sublist _)
        (List.sorted_insertionSort cueTimeLE _)
    · exact dedupConsecutive_chain _

/-- C6 counterexample: the input
`"[00:01.00]a\n[00:01.00]b\n[00:01.00]a"` parses to
`[(1, "a"), (1, "b"), (1, "a")]` — the identical pair `(1, "a")` survives
twice because the equal-time pair `(1, "b")` separates the occurrences, so
neither the parse output nor the cue list built from it is free of
duplicate `(start, text)` combinations. -/
theorem parse_lrc_interleaved_duplicate_cex :
    ¬ ((parse_lrc_synced_lines "[00:01.00]a\n[00:01.00]b\n[00:01.00]a".toList).Pairwise
        (fun p q => p ≠ q))
    ∧ ¬ ((_build_overlay_cues [] (14/5)
          (parse_lrc_synced_lines "[00:01.00]a\n[00:01.00]b\n[00:01.00]a".toList)).Pairwise
        (fun c d => ¬ (c.start = d.start ∧ c.text = d.text))) := by
  constructor
  · decide
  · decide

/-- C4: the parser is total by construction (it never fails); each
timestamp bracket `[mm:ss]` or `[mm:ss.fff]` on a line with non-empty
trailing text is converted to `minutes*60 + seconds + millis/1000`, where
the fraction digits are right-padded/truncated to exactly three digits
(`.5` is 500 ms, `.12` is 120 ms, `.123` is 123 ms), one pair per
timestamp found; in particular
`"[00:01.50]hello\n[00:03.00]world"` parses to
`[(1.5, "hello"), (3.0, "world")]`. -/
theorem parse_lrc_timestamp_conversion :
    parse_lrc_synced_lines "[00:01.50]hello\n[00:03.00]world".toList =
      [(3/2, "hello".toList), (3, "world".toList)]
    ∧ parse_lrc_synced_lines "[00:00.5]x".toList = [(1/2, ['x'])]
    ∧ parse_lrc_synced_lines "[00:00.12]x".toList = [(3/25, ['x'])]
    ∧ parse_lrc_synced_lines "[00:00.123]x".toList = [(123/1000, ['x'])]
    ∧ parse_lrc_synced_lines "[00:01.00][00:05.00]hi".toList =
        [(1, "hi".toList), (5, "hi".toList)]
    ∧ (∀ (mm ss : ℕ) (frac : List Char),
        tsSeconds (mm, ss, frac) =
          (mm : ℚ) * 60 + (ss : ℚ) + (digitsToNat ((frac ++ ['0', '0', '0']).take 3) : ℚ) / 1000) :=
  ⟨by decide, by decide, by decide, by decide, by decide, fun mm ss frac => rfl⟩
